import Mathlib

/-!
# Verification of the stream-ingestion core of `research-agent-workflow`

Shallow embedding of the streaming read loop in
`frontend/src/app/page.tsx` (`handleSubmit`, `normalizeOutput`,
`upsertOutput`, and the error-event path), together with the JavaScript
value semantics the code relies on (truthiness, `String()` coercion,
`Array.prototype.join`, `JSON.stringify(-, null, 2)`, the regexes
`/event: (\w+)/`, `/data: (.*)/s`, `/^content=(["']?)([\s\S]*)\1/`,
`/\\n/g` and `/^##\s+(.*)$/gm`, and `Array.prototype.sort`, which is
required to be stable since ES2019).

`JSON.parse` is a host primitive; the embedding takes it as an explicit
parameter `parse : String → Option Json` (`none` models a thrown
`SyntaxError`).  Theorems about control flow quantify over `parse`;
concrete evaluations instantiate it with a finite table agreeing with
`JSON.parse` on the strings exercised.

The model tracks the `outputs` React state and the `console.error` calls
(the observability sink).  Render-only state (`expandedMap`,
`snackbarMsg`, `isLoading` bookkeeping beyond the submit path) is not
tracked except where a claim needs it.
-/

/-! JSON values as produced by `JSON.parse`, with object fields in
`OrderedOwnKeys` order (so `Object.entries` is the field list itself).
Numbers are restricted to integers; no claim depends on float payloads.
Arrays (`JsonA`) and objects (`JsonO`) are mutual inductives rather
than `List`-valued fields so that every recursion over values is
structural and kernel-reducible. -/
mutual
/-- A JSON value. -/
inductive Json where
  | null : Json
  | bool : Bool → Json
  | num : Int → Json
  | str : String → Json
  | arr : JsonA → Json
  | obj : JsonO → Json
deriving DecidableEq
/-- Elements of a JSON array. -/
inductive JsonA where
  | nil : JsonA
  | cons : Json → JsonA → JsonA
deriving DecidableEq
/-- Fields of a JSON object. -/
inductive JsonO where
  | nil : JsonO
  | cons : String → Json → JsonO → JsonO
deriving DecidableEq
end

/-- The element list of an array value. -/
def JsonA.toList : JsonA → List Json
  | .nil => []
  | .cons j rest => j :: rest.toList

/-- Array value from an element list. -/
def JsonA.ofList : List Json → JsonA
  | [] => .nil
  | j :: rest => .cons j (JsonA.ofList rest)

/-- The field list of an object value. -/
def JsonO.toList : JsonO → List (String × Json)
  | .nil => []
  | .cons k v rest => (k, v) :: rest.toList

/-- Object value from a field list. -/
def JsonO.ofList : List (String × Json) → JsonO
  | [] => .nil
  | (k, v) :: rest => .cons k v (JsonO.ofList rest)

/-- Array literal from an element list. -/
def Json.arrL (l : List Json) : Json := .arr (JsonA.ofList l)

/-- Object literal from a field list. -/
def Json.objL (l : List (String × Json)) : Json := .obj (JsonO.ofList l)

/-- `Array.isArray`. -/
def Json.isArr : Json → Bool
  | .arr _ => true
  | _ => false

/-- Whether the value is JavaScript `null`. -/
def Json.isNull : Json → Bool
  | .null => true
  | _ => false

/-- Whether the value is an object literal (`{...}`). -/
def Json.isObj : Json → Bool
  | .obj _ => true
  | _ => false

/-- JavaScript truthiness of a JSON value. -/
def jsTruthy : Json → Bool
  | .null => false
  | .bool b => b
  | .num n => n != 0
  | .str s => s != ""
  | .arr _ => true
  | .obj _ => true

/-- Truthiness of a possibly-`undefined` value (`none` = `undefined`). -/
def truthyO : Option Json → Bool
  | none => false
  | some v => jsTruthy v

/-- Property access `v[k]` for the data-field names the code reads.
Objects look the key up; every other non-`null` value yields
`undefined` (`none`).  Access on `null` throws and is handled at the
call sites that can receive `null`. -/
def getField : Json → String → Option Json
  | .obj o, k => (o.toList.find? (fun p => p.1 == k)).map (·.2)
  | _, _ => none

/-! `String(v)` coercion, mutually with the element renderings of
`Array.prototype.join(",")` (which `String` of an array delegates to):
`null` (and `undefined`) elements become `""`, all others recurse
through `String()`. -/
mutual
/-- `String(v)` coercion. -/
def jsToString : Json → String
  | .null => "null"
  | .bool b => if b then "true" else "false"
  | .num n => toString n
  | .str s => s
  | .arr a => String.intercalate "," (joinParts a)
  | .obj _ => "[object Object]"
/-- Element renderings of `Array.prototype.join`. -/
def joinParts : JsonA → List String
  | .nil => []
  | .cons j rest => (if j.isNull then "" else jsToString j) :: joinParts rest
end

/-- `String(v)` where `v` may be `undefined` (`none`). -/
def jsToStringU : Option Json → String
  | none => "undefined"
  | some v => jsToString v

/-- `Array.prototype.join(sep)`: elements coerced with `String()`,
except `null`/`undefined` which become the empty string. -/
def jsJoin (sep : String) (l : List Json) : String :=
  String.intercalate sep (l.map fun j => if j.isNull then "" else jsToString j)

/-- `Object.entries(v)`: throws (`Except.error`) on `null`; objects give
their field list; arrays and strings enumerate indices; primitives give
no entries. -/
def jsEntries : Json → Except Unit (List (String × Json))
  | .null => .error ()
  | .obj o => .ok o.toList
  | .arr a => .ok (a.toList.enum.map fun p => (toString p.1, p.2))
  | .str s => .ok (s.data.enum.map fun p => (toString p.1, Json.str (String.singleton p.2)))
  | .num _ => .ok []
  | .bool _ => .ok []

/-- `Array.isArray(v) ? v[0] : v` — `none` is `undefined` (empty array). -/
def jsIndex0 : Json → Option Json
  | .arr .nil => none
  | .arr (.cons j _) => some j
  | j => some j

/-- Hex digit for `\u00XX` escapes in `JSON.stringify`. -/
def hexDigit (n : Nat) : Char :=
  if n < 10 then Char.ofNat (48 + n) else Char.ofNat (87 + n)

/-- `JSON.stringify` escaping of one character inside a string literal. -/
def jsonEscChar (c : Char) : List Char :=
  if c = '"' then ['\\', '"']
  else if c = '\\' then ['\\', '\\']
  else if c = '\n' then ['\\', 'n']
  else if c = '\r' then ['\\', 'r']
  else if c = '\t' then ['\\', 't']
  else if c = Char.ofNat 8 then ['\\', 'b']
  else if c = Char.ofNat 12 then ['\\', 'f']
  else if c.toNat < 32 then
    ['\\', 'u', '0', '0', hexDigit (c.toNat / 16), hexDigit (c.toNat % 16)]
  else [c]

/-- A JSON string literal as `JSON.stringify` renders it. -/
def jsonQuote (s : String) : String :=
  ⟨'"' :: (s.data.map jsonEscChar).flatten ++ ['"']⟩

/-! `JSON.stringify(v, null, 2)`: `stringifyAux v ind` renders `v`
where `ind` is the indentation of the bracket that opens `v`; the item
renderers receive the item indentation `ind ++ "  "` directly. -/
mutual
/-- Render one value at the indentation of its opening bracket. -/
def stringifyAux : Json → String → String
  | .null, _ => "null"
  | .bool b, _ => if b then "true" else "false"
  | .num n, _ => toString n
  | .str s, _ => jsonQuote s
  | .arr .nil, _ => "[]"
  | .arr (.cons x xs), ind =>
      "[\n" ++ String.intercalate ",\n" (stringifyItemsA (.cons x xs) (ind ++ "  ")) ++
        "\n" ++ ind ++ "]"
  | .obj .nil, _ => "\x7b\x7d"
  | .obj (.cons k v rest), ind =>
      "\x7b\n" ++ String.intercalate ",\n" (stringifyItemsO (.cons k v rest) (ind ++ "  ")) ++
        "\n" ++ ind ++ "\x7d"
/-- Render array items at the given item indentation. -/
def stringifyItemsA : JsonA → String → List String
  | .nil, _ => []
  | .cons j rest, indItem =>
      (indItem ++ stringifyAux j indItem) :: stringifyItemsA rest indItem
/-- Render object fields at the given item indentation. -/
def stringifyItemsO : JsonO → String → List String
  | .nil, _ => []
  | .cons k v rest, indItem =>
      (indItem ++ jsonQuote k ++ ": " ++ stringifyAux v indItem) :: stringifyItemsO rest indItem
end

/-- `JSON.stringify(v, null, 2)`. -/
def jsonStringify2 (j : Json) : String := stringifyAux j ""

/-! ### JavaScript string primitives, modeled on `List Char`

Implemented character-exactly; `String` wrappers keep the statements
readable.  `\w` is `[A-Za-z0-9_]` and `\s` is ASCII whitespace (the
payloads exercised contain no exotic Unicode whitespace). -/

/-- `\w` character class. -/
def isWordChar (c : Char) : Bool :=
  c.isAlphanum || c == '_'

/-- `\s` character class (ASCII part). -/
def jsSpace (c : Char) : Bool :=
  c == ' ' || c == '\t' || c == '\n' || c == '\r' || c == Char.ofNat 11 || c == Char.ofNat 12

/-- `chunk.split("\n\n")` on character lists: JS
`String.prototype.split` semantics (leftmost non-overlapping separator
matches), specialized to the two-newline frame separator, the only
separator the code splits on.  `cur` holds the current field reversed. -/
def splitNNAux : List Char → List Char → List (List Char)
  | [], cur => [cur.reverse]
  | [c], cur => [(c :: cur).reverse]
  | c1 :: c2 :: rest, cur =>
      if c1 = '\n' && c2 = '\n' then
        cur.reverse :: splitNNAux rest []
      else
        splitNNAux (c2 :: rest) (c1 :: cur)

/-- JS `s.split("\n\n")`. -/
def jsSplitNN (s : String) : List String :=
  (splitNNAux s.data []).map fun l => ⟨l⟩

/-- `s.replace(/\\n/g, "\n")` on character lists: every literal
backslash-`n` pair becomes a newline (leftmost, non-overlapping), the
only global literal replacement the code performs. -/
def unescapeNlAux : List Char → List Char
  | [] => []
  | [c] => [c]
  | c1 :: c2 :: rest =>
      if c1 = '\\' && c2 = 'n' then
        '\n' :: unescapeNlAux rest
      else
        c1 :: unescapeNlAux (c2 :: rest)

/-- JS `s.replace(/\\n/g, "\n")`. -/
def jsUnescapeNl (s : String) : String :=
  ⟨unescapeNlAux s.data⟩

/-- JS `s.startsWith(pre)`. -/
def jsStartsWith (s pre : String) : Bool :=
  pre.data.isPrefixOf s.data

/-- The text after the first occurrence of the (non-empty) literal
pattern `p0 :: pRest` — the capture of `/pat: (.*)/s`-style regexes,
where the dot-all greedy group takes the whole remainder. -/
def findAfterCL (p0 : Char) (pRest : List Char) : List Char → Option (List Char)
  | [] => none
  | c :: cs =>
      if (p0 :: pRest).isPrefixOf (c :: cs) then some (cs.drop pRest.length)
      else findAfterCL p0 pRest cs

/-- The capture of `/event: (\w+)/`: scanning left to right, the first
position where the literal is followed by at least one word character;
the capture is the maximal word-character run there. -/
def findWordAfterCL (p0 : Char) (pRest : List Char) : List Char → Option (List Char)
  | [] => none
  | c :: cs =>
      if (p0 :: pRest).isPrefixOf (c :: cs) then
        let w := (cs.drop pRest.length).takeWhile isWordChar
        if w.isEmpty then findWordAfterCL p0 pRest cs else some w
      else findWordAfterCL p0 pRest cs

/-- Capture of `line.match(/event: (\w+)/)?.[1]`. -/
def findEventName (line : String) : Option String :=
  (findWordAfterCL 'e' "vent: ".data line.data).map fun l => ⟨l⟩

/-- Capture of `line.match(/data: (.*)/s)?.[1]`. -/
def findDataString (line : String) : Option String :=
  (findAfterCL 'd' "ata: ".data line.data).map fun l => ⟨l⟩

/-- Whether `sub` occurs as a substring of `s`. -/
def hasSubstr (s sub : String) : Bool :=
  match sub.data with
  | [] => true
  | c :: cs => (findAfterCL c cs s.data).isSome

/-- Index of the last occurrence of `q` in `l`. -/
def lastIndexOfChar (q : Char) : List Char → Option Nat
  | [] => none
  | c :: cs =>
      match lastIndexOfChar q cs with
      | some i => some (i + 1)
      | none => if c == q then some 0 else none

/-- Capture 2 of `item.match(/^content=(["']?)([\s\S]*)\1/)`.
After the literal `content=`, the optional quote group prefers to
consume a quote; the greedy middle group then ends at the last later
occurrence of that quote.  If there is none, the regex backtracks to an
empty quote group and the middle group takes the whole remainder. -/
def matchContentWrapper (s : String) : Option String :=
  if ("content=".data).isPrefixOf s.data then
    match s.data.drop 8 with
    | [] => some ""
    | q :: tail =>
        if q == '"' || q == '\'' then
          match lastIndexOfChar q tail with
          | some i => some ⟨tail.take i⟩
          | none => some ⟨q :: tail⟩
        else some ⟨q :: tail⟩
  else none

/-- Scanner mode for the `/^##\s+(.*)$/gm` replacement: `text s` is
ordinary copying (`s` = currently at a line start), `ws` is inside the
matched `\s+` run (which may swallow newlines), `body` is inside the
matched `(.*)` group. -/
inductive DgMode where
  | text : Bool → DgMode
  | ws : DgMode
  | body : DgMode

/-- `content.replace(/^##\s+(.*)$/gm, '**$1**')`: at each line start, a
literal `##` followed by at least one whitespace character and then the
rest of that line is rewritten to `**rest**`.  On entering a match the
opening `**` is emitted, `ws` consumes the whitespace run, `body`
copies up to the end of line, and the closing `**` is emitted before
the terminating newline (or at end of input). -/
def dgRun : List Char → DgMode → List Char
  | [], .text _ => []
  | [], .ws => ['*', '*']
  | [], .body => ['*', '*']
  | c :: cs, .ws => if jsSpace c then dgRun cs .ws else c :: dgRun cs .body
  | c :: cs, .body =>
      if c = '\n' then '*' :: '*' :: '\n' :: dgRun cs (.text true)
      else c :: dgRun cs .body
  | [c], .text _ => [c]
  | c1 :: c2 :: rest, .text atStart =>
      if atStart && c1 = '#' && c2 = '#' && (rest.headD ' ').isWhitespace &&
          !rest.isEmpty then
        '*' :: '*' :: dgRun rest .ws
      else
        c1 :: dgRun (c2 :: rest) (.text (c1 = '\n'))

/-- The level-2-heading downgrade applied at the end of the `report`
branch of `normalizeOutput`. -/
def downgradeH2 (s : String) : String :=
  ⟨dgRun s.data (.text true)⟩

/-- The `AgentOutput` record of `page.tsx`. -/
structure AgentOutput where
  agent : String
  type : String
  content : String
deriving DecidableEq, Repr

/-- The `raw_output` suffix appended in the error case of the `report`
branch: present and truthy fields are appended under a `Raw Output`
label, coerced by the template literal. -/
def rawOutputPart (item : Json) : String :=
  match getField item "raw_output" with
  | some r => if jsTruthy r then "\n\n**Raw Output:**\n\n" ++ jsToString r else ""
  | none => ""

/-- The labeled-section accumulation for a structured `report` object
without an `error` field: present truthy fields among `key_insights`,
`comparative_analysis`, `narrative`, `conclusion` become bold-labeled
sections; if none contributes, fall back to
`JSON.stringify(item, null, 2)`. -/
def reportSections (item : Json) : String :=
  let part := fun (k label : String) =>
    match getField item k with
    | some v => if jsTruthy v then "**" ++ label ++ "**\n\n" ++ jsToString v ++ "\n\n" else ""
    | none => ""
  let content :=
    part "key_insights" "Key Insights" ++
    part "comparative_analysis" "Comparative Analysis" ++
    part "narrative" "Narrative" ++
    part "conclusion" "Conclusion"
  if content == "" then jsonStringify2 item else content

/-- `normalizeOutput` from `page.tsx`, lines 112–158.  `type` is one of
`research_data`, `analysis`, `report` at every call site; any other
value falls to the final `String(rawContent)` branch exactly as the
JavaScript `else` does. -/
def normalizeOutput (agent : String) (type : String) (rawContent : Json) : AgentOutput :=
  let content :=
    if type == "research_data" && rawContent.isArr then
      jsJoin "\n\n" (match rawContent with | .arr a => a.toList | _ => [])
    else if type == "analysis" then
      match jsIndex0 rawContent with
      | some (.str s) => jsUnescapeNl s
      | item => jsToStringU item
    else if type == "report" then
      let item := jsIndex0 rawContent
      let c :=
        match item with
        | some (.str s) =>
            match matchContentWrapper s with
            | some cap => jsUnescapeNl cap
            | none => s
        | some j =>
            if jsTruthy j && (j.isObj || j.isArr) then
              if truthyO (getField j "error") then
                "**Error:** " ++ jsToStringU (getField j "error") ++ rawOutputPart j
              else
                reportSections j
            else jsToStringU item
        | none => jsToStringU item
      downgradeH2 c
    else
      jsToString rawContent
  { agent := agent, type := type, content := content }

/-- `AGENT_ORDER` from `upsertOutput`. -/
def AGENT_ORDER : List String := ["researcher", "analyst", "report_writer"]

/-- `AGENT_ORDER.indexOf(a)`: position, or `-1` when absent (so the
`error` agent and unknown agents rank before every listed stage). -/
def agentIdx (a : String) : Int :=
  match AGENT_ORDER.findIdx? (fun x => x == a) with
  | some i => (i : Int)
  | none => -1

/-- The total preorder realized by the comparator
`(a, b) => AGENT_ORDER.indexOf(a.agent) - AGENT_ORDER.indexOf(b.agent)`. -/
def outLe (a b : AgentOutput) : Prop :=
  agentIdx a.agent ≤ agentIdx b.agent

instance : DecidableRel outLe := fun a b => Int.decLe _ _

instance : IsTotal AgentOutput outLe := ⟨fun a b => Int.le_total _ _⟩

instance : IsTrans AgentOutput outLe := ⟨fun _ _ _ hab hbc => le_trans hab hbc⟩

/-- `Array.prototype.sort` with the rank comparator.  The comparator is
a consistent total preorder, so the ES2019-mandated stable sort result
is the unique stable sort by rank, realized here by insertion sort
(which is stable). -/
def jsSortByRank (l : List AgentOutput) : List AgentOutput :=
  List.insertionSort outLe l

/-- `upsertOutput` from `handleSubmit`: drop the stage's previous entry,
append the new one, re-sort by rank. -/
def upsertOutput (prev : List AgentOutput) (newOutput : AgentOutput) : List AgentOutput :=
  jsSortByRank ((prev.filter fun out => out.agent != newOutput.agent) ++ [newOutput])

/-- Observable per-stream state: the `outputs` React state, the
`console.error` calls (the observability sink), and how many frames
passed the `if (eventType && dataString)` guard. -/
structure StState where
  outputs : List AgentOutput
  log : List String
  eventsProcessed : Nat
deriving DecidableEq, Repr

/-- The `console.error` message of the per-frame `catch` handler. -/
def parseFailLog : String := "Failed to parse event data"

/-- The `update`-event body: `Object.entries(data)[0]` destructuring
(throws on a missing first entry and on `Object.entries(null)`), then
the `research_data` / `analysis` / `report` truthiness chain.  Property
access on a `null` stage value throws.  `Except.error` is the exception
absorbed by the surrounding `catch`. -/
def processUpdate (data : Json) : Except Unit (Option AgentOutput) :=
  match jsEntries data with
  | .error _ => .error ()
  | .ok [] => .error ()
  | .ok ((agent, agentData) :: _) =>
      if agentData.isNull then .error ()
      else if truthyO (getField agentData "research_data") then
        .ok (some (normalizeOutput agent "research_data"
          ((getField agentData "research_data").getD Json.null)))
      else if truthyO (getField agentData "analysis") then
        .ok (some (normalizeOutput agent "analysis"
          ((getField agentData "analysis").getD Json.null)))
      else if truthyO (getField agentData "report") then
        .ok (some (normalizeOutput agent "report"
          ((getField agentData "report").getD Json.null)))
      else .ok none

/-- The `error`-event content `(data as any).error`: property access on
`null` throws; a missing field gives `undefined` and a non-string field
the raw value — both rendered here through string coercion, which is
exact for the string-valued error payloads the wire format carries. -/
def errContent (data : Json) : Except Unit String :=
  if data.isNull then .error ()
  else .ok (jsToStringU (getField data "error"))

/-- Processing of one element of `eventLines` inside `handleSubmit`:
regex extraction, the `eventType && dataString` truthiness guard,
`JSON.parse` (the `parse` parameter), then the `update`/`error`
dispatch; the `catch` turns any thrown step into one `console.error`. -/
def processEventLine (parse : String → Option Json) (st : StState) (line : String) : StState :=
  match findEventName line, findDataString line with
  | some eventType, some dataString =>
      if dataString = "" then st
      else
        let st := { st with eventsProcessed := st.eventsProcessed + 1 }
        match parse dataString with
        | none => { st with log := st.log ++ [parseFailLog] }
        | some data =>
            if eventType = "update" then
              match processUpdate data with
              | .error _ => { st with log := st.log ++ [parseFailLog] }
              | .ok none => st
              | .ok (some out) => { st with outputs := upsertOutput st.outputs out }
            else if eventType = "error" then
              match errContent data with
              | .error _ => { st with log := st.log ++ [parseFailLog] }
              | .ok c =>
                  { st with outputs := st.outputs ++ [⟨"error", "error", c⟩] }
            else st
  | _, _ => st

/-- Folding the per-line handler over a list of event lines. -/
def processLines (parse : String → Option Json) (st : StState) (lines : List String) : StState :=
  lines.foldl (processEventLine parse) st

/-- `chunk.split("\n\n").filter(line => line.startsWith("event:"))` —
each network chunk is split in isolation; no remainder is carried to
the next chunk. -/
def eventLinesOf (chunk : String) : List String :=
  (jsSplitNN chunk).filter fun l => jsStartsWith l "event:"

/-- One iteration of the `while (true)` read loop body for a decoded
text chunk. -/
def processChunk (parse : String → Option Json) (st : StState) (chunk : String) : StState :=
  processLines parse st (eventLinesOf chunk)

/-- The whole read loop over the stream's decoded chunks. -/
def processChunks (parse : String → Option Json) (st : StState) (chunks : List String) : StState :=
  chunks.foldl (processChunk parse) st

/-- The `(eventType, dataString)` pair a line yields, when it passes the
`eventType && dataString` guard. -/
def frameEvent (line : String) : Option (String × String) :=
  match findEventName line, findDataString line with
  | some e, some d => if d = "" then none else some (e, d)
  | _, _ => none

/-- The sequence of frames the read loop extracts and processes from a
chunk sequence. -/
def extractedEvents (chunks : List String) : List (String × String) :=
  (chunks.map fun c => (eventLinesOf c).filterMap frameEvent).flatten

/-- How `handleSubmit` terminates: `completed` is the `done` exit of the
read loop (followed by `setIsLoading(false)`), `failedNoBody` the early
`return` on `if (!response.body)`. -/
inductive RunExit where
  | completed : RunExit
  | failedNoBody : RunExit
deriving DecidableEq, Repr

/-- Result of one `handleSubmit` call. -/
structure RunResult where
  state : StState
  isLoading : Bool
  exit : RunExit
deriving DecidableEq, Repr

/-- `handleSubmit`: reset the store (`setOutputs([])`), issue the
request; with no response body return early (leaving `isLoading`
true), otherwise run the read loop to end-of-stream.  The transport is
abstracted as the optional list of decoded text chunks. -/
def handleSubmit (parse : String → Option Json) (body : Option (List String)) : RunResult :=
  let st0 : StState := ⟨[], [], 0⟩
  match body with
  | none => { state := st0, isLoading := true, exit := .failedNoBody }
  | some chunks =>
      { state := processChunks parse st0 chunks, isLoading := false, exit := .completed }

/-! ### Store-level event model (claim C2's "sequence of upserts") -/

/-- A store mutation as `handleSubmit` performs them: a ranked upsert
from an `update` event, or the append done by an `error` event. -/
inductive StoreEv where
  | up : AgentOutput → StoreEv
  | err : String → StoreEv

/-- Apply one store mutation. -/
def applyEv (l : List AgentOutput) : StoreEv → List AgentOutput
  | .up out => upsertOutput l out
  | .err m => l ++ [⟨"error", "error", m⟩]

/-- Run a mutation sequence against the freshly-reset (empty) store. -/
def runEvents (evs : List StoreEv) : List AgentOutput :=
  evs.foldl applyEv []

/-- Whether an agent is one of the ranked stages of `AGENT_ORDER`. -/
def isRankedAgent (a : String) : Bool :=
  AGENT_ORDER.contains a

/-- Decidable check of "every `error` entry appears after all ranked
stage entries" for a snapshot. -/
def errorsLastB : List AgentOutput → Bool
  | [] => true
  | o :: rest =>
      (o.agent != "error" || rest.all fun r => !(isRankedAgent r.agent)) && errorsLastB rest

/-! ### Helper lemmas -/

/-- `ofList` and `toList` are inverse on array element lists. -/
theorem JsonA.toList_ofList : ∀ xs : List Json, (JsonA.ofList xs).toList = xs
  | [] => rfl
  | x :: xs => by simp [JsonA.ofList, JsonA.toList, JsonA.toList_ofList xs]

/-- Joining an array of strings is plain `String.intercalate`. -/
theorem jsJoin_map_str (sep : String) (l : List String) :
    jsJoin sep (l.map Json.str) = String.intercalate sep l := by
  simp only [jsJoin, List.map_map]
  have h : ((fun j => if j.isNull then "" else jsToString j) ∘ Json.str) = fun s : String => s := by
    funext s
    simp [Json.isNull, jsToString]
  rw [h]
  simp

/-- `upsertOutput` always returns a rank-sorted list: it ends in the
`Array.prototype.sort` call. -/
theorem sorted_upsertOutput (l : List AgentOutput) (out : AgentOutput) :
    List.Sorted outLe (upsertOutput l out) :=
  List.sorted_insertionSort outLe _

/-- One store mutation preserves "the ranked entries are rank-sorted". -/
theorem sorted_filter_ranked_applyEv (l : List AgentOutput) (e : StoreEv)
    (h : List.Sorted outLe (l.filter fun o => isRankedAgent o.agent)) :
    List.Sorted outLe ((applyEv l e).filter fun o => isRankedAgent o.agent) := by
  cases e with
  | up out => exact (sorted_upsertOutput l out).filter _
  | err m =>
      have he : isRankedAgent "error" = false := by decide
      rw [applyEv, List.filter_append]
      simpa [List.filter_cons, he] using h

/-- Any run of store mutations preserves "the ranked entries are
rank-sorted". -/
theorem sorted_filter_ranked_run (evs : List StoreEv) : ∀ l : List AgentOutput,
    List.Sorted outLe (l.filter fun o => isRankedAgent o.agent) →
    List.Sorted outLe ((evs.foldl applyEv l).filter fun o => isRankedAgent o.agent) := by
  induction evs with
  | nil => intro l h; simpa using h
  | cons e evs ih => intro l h; exact ih _ (sorted_filter_ranked_applyEv l e h)

/-! ### Claim C1 -/

/-- The unsplit stream: one frame in a single chunk. -/
def c1Full : String :=
  "event: update\ndata: \x7b\"researcher\": \x7b\"research_data\": [\"a\"]\x7d\x7d\n\n"

/-- First chunk of the same byte stream, cut inside the `data` line. -/
def c1ChunkA : String := "event: update\nda"

/-- Second chunk: the rest of the frame. -/
def c1ChunkB : String :=
  "ta: \x7b\"researcher\": \x7b\"research_data\": [\"a\"]\x7d\x7d\n\n"

/-- The frame's data string. -/
def c1Data : String := "\x7b\"researcher\": \x7b\"research_data\": [\"a\"]\x7d\x7d"

/-- `JSON.parse c1Data`. -/
def c1Json : Json :=
  Json.objL [("researcher", Json.objL [("research_data", Json.arrL [Json.str "a"])])]

/-- The host `JSON.parse`, restricted to the only string this scenario
parses (on which it agrees with the JavaScript engine). -/
def c1Parse : String → Option Json := fun s => if s = c1Data then some c1Json else none

/-- Claim C1 is false on the code: the read loop splits each chunk in
isolation (`chunk.split("\n\n")` with no carried remainder), so
re-chunking the identical byte stream inside a frame loses the frame.
The two-chunk split concatenates to the unsplit stream, yet the loop
extracts (and hence processes) no frame from it, while the unsplit
stream yields the frame and its output. -/
theorem c1_chunk_split_drops_frame :
    c1ChunkA ++ c1ChunkB = c1Full ∧
    extractedEvents [c1Full] = [("update", c1Data)] ∧
    extractedEvents [c1ChunkA, c1ChunkB] = [] ∧
    (handleSubmit c1Parse (some [c1Full])).state.outputs =
      [⟨"researcher", "research_data", "a"⟩] ∧
    (handleSubmit c1Parse (some [c1ChunkA, c1ChunkB])).state.outputs = [] := by
  decide

/-! ### Claim C2 -/

/-- An error event followed by a ranked upsert. -/
def c2Events : List StoreEv :=
  [StoreEv.err "boom", StoreEv.up ⟨"researcher", "research_data", "a"⟩]

/-- Claim C2 as stated is false on the code: after an `error` event, a
later upsert re-sorts the whole array with
`AGENT_ORDER.indexOf("error") = -1`, so the error entry lands *before*
the ranked stages, not after them. -/
theorem c2_error_entry_not_last :
    runEvents c2Events =
      [⟨"error", "error", "boom"⟩, ⟨"researcher", "research_data", "a"⟩] ∧
    errorsLastB (runEvents c2Events) = false := by
  decide

/-- Claim C2 (amended): for every sequence of store mutations the
ranked stages appear in rank order `researcher, analyst, report_writer`
(absent stages omitted); but error entries are last only until the next
upsert — any upsert leaves the whole snapshot sorted by the comparator
rank, which puts rank `-1` `error` entries *before* all ranked stages,
while an error event appends its entry at the end. -/
theorem c2_rank_order_invariant (evs : List StoreEv) :
    List.Sorted outLe ((runEvents evs).filter fun o => isRankedAgent o.agent) ∧
    (∀ out : AgentOutput, List.Sorted outLe (runEvents (evs ++ [StoreEv.up out]))) ∧
    (∀ m : String, runEvents (evs ++ [StoreEv.err m]) =
      runEvents evs ++ [⟨"error", "error", m⟩]) := by
  refine ⟨sorted_filter_ranked_run evs [] (by simp), fun out => ?_, fun m => ?_⟩
  · rw [runEvents, List.foldl_append]
    simp only [List.foldl_cons, List.foldl_nil, applyEv]
    exact sorted_upsertOutput _ _
  · rw [runEvents, List.foldl_append]
    simp only [List.foldl_cons, List.foldl_nil, applyEv]
    rfl

/-! ### Claim C3 -/

/-- The fenced-JSON analysis payload from the spec's example. -/
def c3Fenced : String :=
  "```json\n\x7b\"key_insights\":\"X\",\"comparative_analysis\":\"Y\",\"narrative\":\"Z\"\x7d\n```"

/-- Claim C3 is false on the code: the `analysis` branch of
`normalizeOutput` never extracts or parses a fenced `json` block (the
`parseJsonCodeBlock` helper exists in the file but is unused), so the
spec's example payload comes back verbatim, with no `Key Insights`
section label anywhere in the result. -/
theorem c3_fenced_json_not_parsed :
    normalizeOutput "analyst" "analysis" (Json.str c3Fenced) =
      ⟨"analyst", "analysis", c3Fenced⟩ ∧
    hasSubstr (normalizeOutput "analyst" "analysis" (Json.str c3Fenced)).content
      "Key Insights" = false := by
  decide

/-- Claim C3 (amended): an `analysis` string payload — fenced or not —
is returned as-is except that literal `\n` escape sequences are
unescaped into newlines; no fenced-JSON extraction, parsing or
relabeling happens. -/
theorem c3_analysis_returns_string_unescaped (agent s : String) :
    normalizeOutput agent "analysis" (Json.str s) =
      ⟨agent, "analysis", jsUnescapeNl s⟩ := by
  rfl

/-! ### Claim C4 -/

/-- JSON of the stale frame still in flight from the abandoned stream. -/
def c4Json : Json :=
  Json.objL [("researcher", Json.objL [("research_data", Json.arrL [Json.str "stale"])])]

/-- The host `JSON.parse`, restricted to the stale frame's data string. -/
def c4Parse : String → Option Json :=
  fun s => if s = "\x7b\"researcher\": \x7b\"research_data\": [\"stale\"]\x7d\x7d" then some c4Json else none

/-- The stale frame's event line. -/
def c4StaleLine : String :=
  "event: update\ndata: \x7b\"researcher\": \x7b\"research_data\": [\"stale\"]\x7d\x7d"

/-- Claim C4 is false on the code: there is no epoch guard; the
abandoned stream's loop keeps calling the same `setOutputs` updater, so
a stale frame processed after the reset (`⟨[], [], 0⟩` is the store
right after `setOutputs([])` for the new task) inserts its entry into
the *new* snapshot. -/
theorem c4_stale_frame_mutates_new_snapshot :
    (processEventLine c4Parse ⟨[], [], 0⟩ c4StaleLine).outputs =
      [⟨"researcher", "research_data", "stale"⟩] ∧
    (processEventLine c4Parse ⟨[], [], 0⟩ c4StaleLine).outputs ≠ [] := by
  decide

/-! ### Claim C5 -/

/-- Claim C5: when the response carries no body, `handleSubmit` takes
the early `return` (the code's realization of the terminal `Failed`
state): the loop never runs, zero frames pass the event guard, the
store keeps the empty snapshot of the fresh reset, and nothing is
logged.  (The early return also leaves `isLoading` true.) -/
theorem c5_no_body_is_zero_event_failure (parse : String → Option Json) :
    handleSubmit parse none =
      { state := ⟨[], [], 0⟩, isLoading := true, exit := RunExit.failedNoBody } := by
  rfl

/-! ### Claim C6 -/

/-- Claim C6: a frame whose data string fails `JSON.parse` is dropped —
the store is untouched — and logged exactly once through the per-frame
`catch`, after which processing continues on the remaining frames from
exactly that state; quantified over the parse oracle, the prior state
and the rest of the stream. -/
theorem c6_malformed_frame_dropped_logged_once (parse : String → Option Json)
    (st : StState) (line : String) (rest : List String) (et ds : String)
    (hev : findEventName line = some et) (hds : findDataString line = some ds)
    (hne : ds ≠ "") (hbad : parse ds = none) :
    processLines parse st (line :: rest) =
      processLines parse
        { st with log := st.log ++ [parseFailLog],
                  eventsProcessed := st.eventsProcessed + 1 } rest := by
  simp only [processLines, List.foldl_cons]
  congr 1
  simp [processEventLine, hev, hds, hne, hbad]

/-- Witness for C6 at the spec's own example `data: {not json`: with a
parse oracle failing on that string (as `JSON.parse` does), the single
malformed frame yields exactly one log entry, no output, and the
processed-frame counter advanced. -/
theorem c6_malformed_frame_dropped_logged_once_witness :
    processLines (fun _ => none) ⟨[], [], 0⟩ ["event: update\ndata: \x7bnot json"] =
      ⟨[], [parseFailLog], 1⟩ := by
  have h := c6_malformed_frame_dropped_logged_once (fun _ => none) ⟨[], [], 0⟩
    "event: update\ndata: \x7bnot json" [] "update" "\x7bnot json"
    (by decide) (by decide) (by decide) rfl
  exact h.trans (by decide)

/-! ### Claim C7 -/

/-- Claim C7: the normalizer is a total function — in the embedding it
returns an `AgentOutput` (no `Option`/`Except`), faithfully to the
source, where every operation used (`Array.isArray`, `join`, `typeof`,
property access on non-null values, `String()`, `match`,
`JSON.stringify`, `replace`) is total on JSON values.  It always
carries the requested agent and kind through, and the worst case is
the raw string-coercion fallback: a `research_data` payload that is
not an array lands in the final `String(rawContent)` branch. -/
theorem c7_normalizer_total (agent type : String) (raw : Json) :
    (normalizeOutput agent type raw).agent = agent ∧
    (normalizeOutput agent type raw).type = type ∧
    (type = "research_data" → raw.isArr = false →
      (normalizeOutput agent type raw).content = jsToString raw) := by
  refine ⟨rfl, rfl, fun ht hr => ?_⟩
  subst ht
  simp [normalizeOutput, hr]

/-- Witness for C7: a numeric `research_data` payload (not an array)
falls back to `String()` coercion. -/
theorem c7_normalizer_total_witness :
    (normalizeOutput "researcher" "research_data" (Json.num 7)).agent = "researcher" ∧
    (normalizeOutput "researcher" "research_data" (Json.num 7)).content = "7" := by
  have h := c7_normalizer_total "researcher" "research_data" (Json.num 7)
  exact ⟨h.1, (h.2.2 rfl rfl).trans (by decide)⟩

/-! ### Claim C8 -/

/-- Claim C8 is false as stated on the code: `if (item.error)` tests JS
truthiness, not presence, so a report object whose `error` field is the
empty string skips the error branch entirely and is rendered as a
pretty-printed JSON dump with no `Error` label anywhere. -/
theorem c8_falsy_error_field_not_labeled :
    (normalizeOutput "report_writer" "report" (Json.objL [("error", Json.str "")])).content =
      "\x7b\n  \"error\": \"\"\n\x7d" ∧
    hasSubstr
      (normalizeOutput "report_writer" "report" (Json.objL [("error", Json.str "")])).content
      "Error" = false := by
  decide

/-- Claim C8 (amended): for every report payload object whose `error`
field is JS-truthy, normalization yields `**Error:** ` followed by the
error value, and — when a truthy `raw_output` field is present — a
`**Raw Output:**` label followed by that value, the whole passed
through the final level-2-heading downgrade of the report branch. -/
theorem c8_truthy_error_labeled (agent : String) (o : JsonO) (e : Json)
    (he : getField (Json.obj o) "error" = some e) (ht : jsTruthy e = true) :
    normalizeOutput agent "report" (Json.obj o) =
      ⟨agent, "report",
        downgradeH2 ("**Error:** " ++ jsToString e ++ rawOutputPart (Json.obj o))⟩ := by
  have hobj : jsTruthy (Json.obj o) = true := rfl
  simp [normalizeOutput, jsIndex0, he, ht, truthyO, jsToStringU, hobj, Json.isObj]

/-- Witness for C8 at the spec's example `{"error":"boom","raw_output":"trace"}`. -/
theorem c8_truthy_error_labeled_witness :
    normalizeOutput "report_writer" "report"
        (Json.objL [("error", Json.str "boom"), ("raw_output", Json.str "trace")]) =
      ⟨"report_writer", "report", "**Error:** boom\n\n**Raw Output:**\n\ntrace"⟩ := by
  have h := c8_truthy_error_labeled "report_writer"
    (JsonO.cons "error" (Json.str "boom") (JsonO.cons "raw_output" (Json.str "trace") JsonO.nil))
    (Json.str "boom") rfl rfl
  exact h.trans (by decide)

/-! ### Claim C9 -/

/-- Claim C9: a `research_data` payload that is an array of strings is
joined with the blank-line separator (`["a", "b"]` gives `"a\n\nb"` by
the witness), and any non-array `research_data` payload is stringified
directly by the final `String(rawContent)` branch. -/
theorem c9_research_data_join (agent : String) (l : List String) (raw : Json)
    (hraw : raw.isArr = false) :
    normalizeOutput agent "research_data" (Json.arrL (l.map Json.str)) =
      ⟨agent, "research_data", String.intercalate "\n\n" l⟩ ∧
    normalizeOutput agent "research_data" raw =
      ⟨agent, "research_data", jsToString raw⟩ := by
  constructor
  · simp [normalizeOutput, Json.arrL, Json.isArr, JsonA.toList_ofList, jsJoin_map_str]
  · simp [normalizeOutput, hraw]

/-- Witness for C9 at the spec's example `["a", "b"]` and a non-array
payload. -/
theorem c9_research_data_join_witness :
    normalizeOutput "researcher" "research_data" (Json.arrL [Json.str "a", Json.str "b"]) =
      ⟨"researcher", "research_data", "a\n\nb"⟩ ∧
    normalizeOutput "researcher" "research_data" (Json.num 7) =
      ⟨"researcher", "research_data", "7"⟩ := by
  have h := c9_research_data_join "researcher" ["a", "b"] (Json.num 7) rfl
  exact ⟨h.1.trans (by decide), h.2.trans (by decide)⟩

/-! ### Claim C10 -/

/-- Truthiness of a present field is the field value's truthiness. -/
theorem truthyO_some (v : Json) : truthyO (some v) = jsTruthy v := rfl

/-- Claim C10: `update` dispatch.  (1) Only the first entry of the
payload object is consulted — any further entries are ignored.  (2) An
empty payload object makes `Object.entries(data)[0]` destructuring
throw; the per-frame `catch` absorbs it into one log entry and the
stream continues.  (3)–(5) The fields are tried in the fixed priority
order `research_data`, `analysis`, `report`: a truthy `research_data`
wins regardless of the others; with `research_data` falsy, a truthy
`analysis` wins regardless of `report`; with both falsy, a truthy
`report` produces its normalized upsert.  (6) A non-null stage value
none of whose three fields is truthy produces no output at all. -/
theorem c10_update_first_entry_priority (a : String) (ad : Json) (more : JsonO)
    (parse : String → Option Json) (st : StState) (line : String) (rest : List String)
    (ds : String) (v w u : Json) :
    processUpdate (Json.obj (JsonO.cons a ad more)) =
      processUpdate (Json.obj (JsonO.cons a ad JsonO.nil)) ∧
    (findEventName line = some "update" → findDataString line = some ds → ds ≠ "" →
      parse ds = some (Json.obj JsonO.nil) →
      processLines parse st (line :: rest) =
        processLines parse
          { st with log := st.log ++ [parseFailLog],
                    eventsProcessed := st.eventsProcessed + 1 } rest) ∧
    (getField ad "research_data" = some v → jsTruthy v = true →
      processUpdate (Json.obj (JsonO.cons a ad more)) =
        Except.ok (some (normalizeOutput a "research_data" v))) ∧
    (truthyO (getField ad "research_data") = false →
      getField ad "analysis" = some w → jsTruthy w = true →
      processUpdate (Json.obj (JsonO.cons a ad more)) =
        Except.ok (some (normalizeOutput a "analysis" w))) ∧
    (truthyO (getField ad "research_data") = false →
      truthyO (getField ad "analysis") = false →
      getField ad "report" = some u → jsTruthy u = true →
      processUpdate (Json.obj (JsonO.cons a ad more)) =
        Except.ok (some (normalizeOutput a "report" u))) ∧
    (ad.isNull = false → truthyO (getField ad "research_data") = false →
      truthyO (getField ad "analysis") = false → truthyO (getField ad "report") = false →
      processUpdate (Json.obj (JsonO.cons a ad JsonO.nil)) = Except.ok none) := by
  refine ⟨rfl, fun hev hds hne hempty => ?_, fun hrd htr => ?_, fun h1 han htw => ?_,
    fun h1 h2 hrp htu => ?_, fun hnn h1 h2 h3 => ?_⟩
  · simp only [processLines, List.foldl_cons]
    congr 1
    simp [processEventLine, hev, hds, hne, hempty, processUpdate, jsEntries, JsonO.toList]
  · have hnull : ad.isNull = false := by
      cases ad <;> simp_all [getField, Json.isNull]
    simp [processUpdate, jsEntries, JsonO.toList, hnull, hrd, htr, truthyO_some]
  · have hnull : ad.isNull = false := by
      cases ad <;> simp_all [getField, Json.isNull]
    simp [processUpdate, jsEntries, JsonO.toList, hnull, h1, han, htw, truthyO_some]
  · have hnull : ad.isNull = false := by
      cases ad <;> simp_all [getField, Json.isNull]
    simp [processUpdate, jsEntries, JsonO.toList, hnull, h1, h2, hrp, htu, truthyO_some]
  · simp [processUpdate, jsEntries, JsonO.toList, hnn, h1, h2, h3]

/-- The stage-data object of the C10 witness: a truthy `research_data`
field and a `report` field, so priority is exercised. -/
def c10Stage : Json :=
  Json.objL [("research_data", Json.arrL [Json.str "a"]), ("report", Json.str "r")]

/-- Stage data with a truthy `analysis` field *and* a truthy `report`
field but no `research_data`, exercising `analysis` precedence over
`report`. -/
def c10AStage : Json :=
  Json.objL [("analysis", Json.str "x"), ("report", Json.str "rr")]

/-- Stage data with only a truthy `report` field, exercising the last
link of the priority chain. -/
def c10RStage : Json :=
  Json.objL [("report", Json.str "rr")]

/-- The host `JSON.parse`, restricted to the empty-object data string. -/
def c10Parse : String → Option Json :=
  fun s => if s = "\x7b\x7d" then some (Json.obj JsonO.nil) else none

/-- Witness for C10: with a second payload entry present and a `report`
field alongside, the first entry's truthy `research_data` still wins;
the empty-object frame `data: {}` costs one log entry and leaves the
store empty; with no `research_data`, a truthy `analysis` beats the
truthy `report` sitting next to it; a lone truthy `report` produces its
normalized upsert; and a stage value with none of the three fields
yields no output. -/
theorem c10_update_first_entry_priority_witness :
    processUpdate (Json.obj (JsonO.cons "researcher" c10Stage
        (JsonO.cons "analyst" Json.null JsonO.nil))) =
      Except.ok (some ⟨"researcher", "research_data", "a"⟩) ∧
    processLines c10Parse ⟨[], [], 0⟩ ["event: update\ndata: \x7b\x7d"] =
      ⟨[], [parseFailLog], 1⟩ ∧
    processUpdate (Json.obj (JsonO.cons "analyst" c10AStage JsonO.nil)) =
      Except.ok (some ⟨"analyst", "analysis", "x"⟩) ∧
    processUpdate (Json.obj (JsonO.cons "report_writer" c10RStage JsonO.nil)) =
      Except.ok (some ⟨"report_writer", "report", "rr"⟩) ∧
    processUpdate (Json.obj (JsonO.cons "researcher"
        (Json.objL [("note", Json.str "x")]) JsonO.nil)) = Except.ok none := by
  have h := c10_update_first_entry_priority "researcher" c10Stage
    (JsonO.cons "analyst" Json.null JsonO.nil) c10Parse ⟨[], [], 0⟩
    "event: update\ndata: \x7b\x7d" [] "\x7b\x7d" (Json.arrL [Json.str "a"])
    Json.null Json.null
  have h2 := c10_update_first_entry_priority "researcher"
    (Json.objL [("note", Json.str "x")]) JsonO.nil c10Parse ⟨[], [], 0⟩
    "event: update\ndata: \x7b\x7d" [] "\x7b\x7d" Json.null Json.null Json.null
  have h3 := c10_update_first_entry_priority "analyst" c10AStage JsonO.nil c10Parse
    ⟨[], [], 0⟩ "event: update\ndata: \x7b\x7d" [] "\x7b\x7d" Json.null
    (Json.str "x") Json.null
  have h4 := c10_update_first_entry_priority "report_writer" c10RStage JsonO.nil c10Parse
    ⟨[], [], 0⟩ "event: update\ndata: \x7b\x7d" [] "\x7b\x7d" Json.null
    Json.null (Json.str "rr")
  have hnorm : normalizeOutput "researcher" "research_data" (Json.arrL [Json.str "a"]) =
      ⟨"researcher", "research_data", "a"⟩ := by decide
  have hnormA : normalizeOutput "analyst" "analysis" (Json.str "x") =
      ⟨"analyst", "analysis", "x"⟩ := by decide
  have hnormR : normalizeOutput "report_writer" "report" (Json.str "rr") =
      ⟨"report_writer", "report", "rr"⟩ := by decide
  have ha := h.2.2.1 rfl rfl
  rw [hnorm] at ha
  have hb : processLines c10Parse ⟨[], [], 0⟩ ["event: update\ndata: \x7b\x7d"] =
      ⟨[], [parseFailLog], 1⟩ :=
    (h.2.1 (by decide) (by decide) (by decide) rfl).trans (by decide)
  have hc := h3.2.2.2.1 (by decide) rfl rfl
  rw [hnormA] at hc
  have hd := h4.2.2.2.2.1 (by decide) (by decide) rfl rfl
  rw [hnormR] at hd
  have he := h2.2.2.2.2.2 (by decide) (by decide) (by decide) (by decide)
  exact ⟨ha, hb, hc, hd, he⟩
